import Mathlib

/-!
Verification of the Personal_chat retrieval-augmented QA service.

The Python sources are shallowly embedded: Python strings are `List Char`,
Python `str.split()` / `str.strip()` / `str.join` are modelled over lists of
characters with Python's whitespace semantics, the vector store is a record
holding the current collection contents together with the memoized search
cache, and the outcomes of external calls (file reads, PDF extraction,
embedding model, ANN query, the chat-completion endpoint, uuid generation)
are passed in as explicit parameters.
-/

namespace PersonalChat

/-! ### Python string primitives over `List Char` -/

/-- Python's whitespace test used by `str.split()` and `str.strip()`. -/
def isWs (c : Char) : Bool := c.isWhitespace

/-- Python `text.split()`: split on runs of whitespace, discarding empty
pieces. -/
def pySplit (s : List Char) : List (List Char) :=
  (s.splitOnP isWs).filter (fun w => !w.isEmpty)

/-- Python `text.strip()`: remove leading and trailing whitespace. -/
def pyStrip (s : List Char) : List Char :=
  ((s.dropWhile isWs).reverse.dropWhile isWs).reverse

/-- Python `sep.join(parts)`. -/
def pyJoinWith (sep : List Char) : List (List Char) → List Char
  | [] => []
  | [u] => u
  | u :: v :: rest => u ++ sep ++ pyJoinWith sep (v :: rest)

/-- Python `range(0, stop, step)` for a positive `step` (the only way the
source calls it): the indices `k * step` for `k < ⌈stop / step⌉`. -/
def pyRange (stop step : Nat) : List Nat :=
  (List.range ((stop + step - 1) / step)).map (fun k => k * step)

/-- Python `str(n)` for a natural number. -/
def natStr (n : Nat) : List Char := (toString n).toList

/-! ### document_processor.py -/

/-- `DocumentProcessor.split_text_into_chunks` (document_processor.py:43-56):
whitespace-split the text and emit windows of `chunk_size` words advancing by
`chunk_size - overlap` words.  The source is only ever called with
`overlap < chunk_size`, where Python's `chunk_size - overlap` agrees with
truncated Nat subtraction. -/
def split_text_into_chunks (text : List Char) (chunk_size overlap : Nat) :
    List (List Char) :=
  if (pyStrip text).isEmpty then []
  else
    let words := pySplit text
    (pyRange words.length (chunk_size - overlap)).foldl
      (fun chunks i =>
        let chunk := pyJoinWith [' '] ((words.drop i).take chunk_size)
        if (pyStrip chunk).isEmpty then chunks else chunks ++ [chunk])
      []

/-- A file discovered by `Documents` folder traversal.  `name` and `ext` are
`file_path.name` and `file_path.suffix`; `readResult` is the outcome of
`open(...).read()` for a text file (`none` models a raised exception);
`pdfText` is the string returned by `extract_text_from_pdf` (that function
already returns `""` when the PDF extraction library raises). -/
structure SrcFile where
  name : List Char
  ext : List Char
  readResult : Option (List Char)
  pdfText : List Char
deriving DecidableEq

/-- Python `s.lower()`. -/
def pyLower (s : List Char) : List Char := s.map Char.toLower

/-- The whitelisted plain-text extensions (document_processor.py:20). -/
def text_extensions : List (List Char) :=
  [".txt", ".md", ".py", ".js", ".html", ".css", ".json", ".csv", ".xml",
   ".yaml", ".yml"].map String.toList

/-- `DocumentProcessor.is_text_file` (document_processor.py:15-21). -/
def is_text_file (f : SrcFile) : Bool :=
  if f.name.head? == some '.' || f.name == "DS_Store".toList then false
  else text_extensions.contains (pyLower f.ext)

/-- `DocumentProcessor.is_pdf_file` (document_processor.py:23-25). -/
def is_pdf_file (f : SrcFile) : Bool := pyLower f.ext == ".pdf".toList

/-- The `content` variable at document_processor.py:80 after the per-file
branches: a failed text read leaves `content = ""`. -/
def fileContent (f : SrcFile) : List Char :=
  if is_text_file f then
    match f.readResult with
    | some s => s
    | none => []
  else if is_pdf_file f then f.pdfText
  else []

/-- The per-chunk metadata dict built at document_processor.py:85-89. -/
structure ChunkMeta where
  filename : List Char
  chunk_index : Nat
  total_chunks : Nat
deriving DecidableEq

/-- One iteration of the file loop in `process_documents`
(document_processor.py:66-89). -/
def procStep (acc : List (List Char) × List ChunkMeta) (f : SrcFile) :
    List (List Char) × List ChunkMeta :=
  let content := fileContent f
  if content.isEmpty then acc
  else
    let chunks := split_text_into_chunks content 1000 200
    (acc.1 ++ chunks,
     acc.2 ++ (List.range chunks.length).map
        (fun i => ⟨f.name, i, chunks.length⟩))

/-- `DocumentProcessor.process_documents` (document_processor.py:58-92) on the
list of files found in discovery order (the folder-missing `FileNotFoundError`
case is outside this success path). -/
def process_documents (files : List SrcFile) :
    List (List Char) × List ChunkMeta :=
  files.foldl procStep ([], [])

/-- The chunks `process_documents` derives from a single file. -/
def fileChunks (f : SrcFile) : List (List Char) :=
  if (fileContent f).isEmpty then []
  else split_text_into_chunks (fileContent f) 1000 200

/-- The metadata records `process_documents` emits for a single file. -/
def fileMetas (f : SrcFile) : List ChunkMeta :=
  (List.range (fileChunks f).length).map
    (fun i => ⟨f.name, i, (fileChunks f).length⟩)

/-! ### vector_store.py -/

/-- The dict returned by `collection.query` / `VectorStore.search`: one inner
list per query (the source always queries a single embedding). -/
structure SearchResult where
  documents : List (List (List Char))
  metadatas : List (List ChunkMeta)
deriving DecidableEq

/-- The degraded result `{"documents": [[]], "metadatas": [[]]}` returned by
the `except` branch of `search` (vector_store.py:65). -/
def emptySearchResult : SearchResult := ⟨[[]], [[]]⟩

/-- The current ChromaDB collection, abstracted to its stored
(document, metadata) pairs; embeddings and ids are opaque externals. -/
structure Collection where
  items : List (List Char × ChunkMeta)
deriving DecidableEq

/-- The mutable state of a `VectorStore` instance: the collection name, the
current collection, and the `functools.lru_cache(maxsize=100)` memo table on
`search` keyed by `(query, n_results)` (most recent first; the precise LRU
eviction order of the external decorator is abstracted, the bound is kept). -/
structure VectorStoreState where
  collection_name : List Char
  collection : Collection
  cache : List ((List Char × Nat) × SearchResult)
deriving DecidableEq

/-- `VectorStore.__init__` with the default collection name. -/
def initialStore : VectorStoreState := ⟨"documents".toList, ⟨[]⟩, []⟩

def cacheLookup (cache : List ((List Char × Nat) × SearchResult))
    (key : List Char × Nat) : Option SearchResult :=
  (cache.find? (fun e => e.1 == key)).map (fun e => e.2)

def cacheInsert (cache : List ((List Char × Nat) × SearchResult))
    (key : List Char × Nat) (r : SearchResult) :
    List ((List Char × Nat) × SearchResult) :=
  ((key, r) :: cache.filter (fun e => !(e.1 == key))).take 100

/-- Outcome of the externally delegated steps inside the `try` of `search`:
embedding the query can raise, and the ANN query can raise or succeed. -/
inductive SearchSteps where
  | embedFail (msg : List Char)
  | queryFail (msg : List Char)
  | ok (r : SearchResult)
deriving DecidableEq

/-- The body of `VectorStore.search` (vector_store.py:51-65), i.e. the
undecorated function: any exception from the embedding or the query is caught
and degraded to the empty result. -/
def search_body (steps : SearchSteps) : SearchResult :=
  match steps with
  | SearchSteps.ok r => r
  | SearchSteps.embedFail _ => emptySearchResult
  | SearchSteps.queryFail _ => emptySearchResult

/-- `VectorStore.search` as decorated with `@lru_cache(maxsize=100)`
(vector_store.py:49-65): on a hit the body is not executed; on a miss the
body runs and its result is memoized. -/
def search (st : VectorStoreState) (query : List Char) (n_results : Nat)
    (steps : SearchSteps) : SearchResult × VectorStoreState :=
  match cacheLookup st.cache (query, n_results) with
  | some r => (r, st)
  | none =>
    let r := search_body steps
    (r, { st with cache := cacheInsert st.cache (query, n_results) r })

/-- `VectorStore.add_documents` (vector_store.py:25-47), success path: insert
in batches of 100; embeddings and the freshly generated uuids are opaque. -/
def add_documents (st : VectorStoreState) (docs : List (List Char))
    (metas : List ChunkMeta) : VectorStoreState :=
  (pyRange docs.length 100).foldl
    (fun s i =>
      { s with collection :=
          ⟨s.collection.items
            ++ (((docs.drop i).take 100).zip ((metas.drop i).take 100))⟩ })
    st

/-- `VectorStore.clear` (vector_store.py:67-86).  `deleteFails` selects the
`except` branch (the spec's named failure case: `delete_collection` raising);
`uuidHex` is the external `uuid.uuid4().hex[:8]`.  On the fallback path the
collection is renamed and recreated empty but `search.cache_clear()` is not
called — that call sits only in the `try` branch. -/
def clear (st : VectorStoreState) (deleteFails : Bool) (uuidHex : List Char) :
    VectorStoreState :=
  if deleteFails then
    { st with
        collection_name := st.collection_name ++ '_' :: uuidHex,
        collection := ⟨[]⟩ }
  else
    { st with collection := ⟨[]⟩, cache := [] }

/-- `VectorStore.is_empty` (vector_store.py:88-96): `countFails` models the
`collection.count()` call raising, in which case `True` is returned. -/
def is_empty (st : VectorStoreState) (countFails : Bool) : Bool :=
  if countFails then true
  else st.collection.items.length == 0

/-! ### qa_engine.py -/

/-- Outcome of the remote `openai.ChatCompletion.create` call. -/
inductive ApiOutcome where
  | success (answer : List Char)
  | timeout
  | failure (msg : List Char)
deriving DecidableEq

def noRelevantMsg : List Char :=
  "No relevant information found in the documents.".toList

def timeoutMsg : List Char :=
  "The request took too long to process. Please try again with a more specific question.".toList

def errorHead : List Char := "Error getting answer: ".toList

/-- `QAEngine.get_answer` (qa_engine.py:40-71) instrumented with a flag
recording whether the remote call was performed.  The function is total:
every exception from the call is caught and turned into a string. -/
def get_answer_run (question context : List Char) (api : ApiOutcome) :
    List Char × Bool :=
  if context.isEmpty then (noRelevantMsg, false)
  else
    match api with
    | ApiOutcome.success a => (a, true)
    | ApiOutcome.timeout => (timeoutMsg, true)
    | ApiOutcome.failure m => (errorHead ++ m, true)

/-- The string `QAEngine.get_answer` returns to its caller. -/
def get_answer (question context : List Char) (api : ApiOutcome) : List Char :=
  (get_answer_run question context api).1

/-- The per-chunk truncation inside `prepare_context` (qa_engine.py:30-31). -/
def truncateChunk (chunk : List Char) : List Char :=
  if 1000 < chunk.length then chunk.take 1000 ++ "...".toList else chunk

/-- One entry of `context_parts` (qa_engine.py:32-36). -/
def contextPart (chunk : List Char) (m : ChunkMeta) : List Char :=
  "Document: ".toList ++ m.filename ++ " (part ".toList
    ++ natStr (m.chunk_index + 1) ++ "/".toList ++ natStr m.total_chunks
    ++ ")".toList ++ '\n' :: truncateChunk chunk

/-- `QAEngine.prepare_context` (qa_engine.py:20-38).  The source indexes
`metadatas[0][i]` in lockstep with `documents[0][:2]`; the zip reflects the
aligned lists the store produces. -/
def prepare_context (r : SearchResult) : List Char :=
  if r.documents.isEmpty || (r.documents.headD []).isEmpty then []
  else
    pyJoinWith ('\n' :: '\n' :: [])
      ((((r.documents.headD []).take 2).zip (r.metadatas.headD [])).map
        (fun p => contextPart p.1 p.2))

/-! ### app.py request handlers -/

/-- A Python exception crossing the handler's `try`: either a
`fastapi.HTTPException` (which subclasses `Exception`) or any other error. -/
inductive PyExc where
  | httpExc (status : Nat) (detail : List Char)
  | other (msg : List Char)
deriving DecidableEq

/-- Python `str(e)`: starlette renders an `HTTPException` as
`"{status_code}: {detail}"`. -/
def pyStr : PyExc → List Char
  | PyExc.httpExc s d => natStr s ++ ": ".toList ++ d
  | PyExc.other m => m

def noDocsMsg : List Char :=
  "No documents found in the Documents folder.".toList

/-- The tail of the `/ask` try block (app.py:166-179): search, assemble
context, generate the answer. -/
def ask_answer (st : VectorStoreState) (qtext : List Char)
    (steps : SearchSteps) (api : ApiOutcome) : Except PyExc (List Char) :=
  let sr := (search st qtext 3 steps).1
  let ctx := prepare_context sr
  Except.ok (get_answer qtext ctx api)

/-- The `try` block of the `/ask` handler (app.py:150-179). -/
def ask_try (st : VectorStoreState) (countFails : Bool)
    (files : List SrcFile) (steps : SearchSteps) (api : ApiOutcome)
    (qtext : List Char) : Except PyExc (List Char) :=
  if is_empty st countFails then
    let cm := process_documents files
    if cm.1.isEmpty then Except.error (PyExc.httpExc 404 noDocsMsg)
    else ask_answer (add_documents st cm.1 cm.2) qtext steps api
  else ask_answer st qtext steps api

/-- The whole `/ask` handler (app.py:147-182): the `except Exception` clause
catches every exception raised in the try block — including the
`HTTPException(404, ...)` raised there, since `HTTPException` subclasses
`Exception` — and re-raises it as `HTTPException(500, str(e))`. -/
def ask_question (st : VectorStoreState) (countFails : Bool)
    (files : List SrcFile) (steps : SearchSteps) (api : ApiOutcome)
    (qtext : List Char) : Except PyExc (List Char) :=
  match ask_try st countFails files steps api qtext with
  | Except.ok a => Except.ok a
  | Except.error e => Except.error (PyExc.httpExc 500 (pyStr e))

/-- The HTTP status carried by a handler outcome, if it failed. -/
def excStatus : Except PyExc (List Char) → Option Nat
  | Except.error (PyExc.httpExc s _) => some s
  | _ => none

/-- The `try` block of the `/update` handler (app.py:188-204): clear, re-run
ingest, re-populate; the reported count is `len(chunks)`. -/
def update (st : VectorStoreState) (deleteFails : Bool) (uuidHex : List Char)
    (files : List SrcFile) : VectorStoreState × Nat :=
  let st1 := clear st deleteFails uuidHex
  let cm := process_documents files
  (add_documents st1 cm.1 cm.2, cm.1.length)

/-! ### Lemmas about the string primitives -/

theorem isEmpty_false_of_ne_nil {α : Type} {l : List α} (h : l ≠ []) :
    l.isEmpty = false := by
  cases l with
  | nil => exact absurd rfl h
  | cons a t => rfl

theorem eq_nil_of_isEmpty {α : Type} {l : List α} (h : l.isEmpty = true) :
    l = [] := by
  cases l with
  | nil => rfl
  | cons a t => simp [List.isEmpty] at h

/-- Every word produced by `pySplit` is non-empty. -/
theorem mem_pySplit_ne_nil {s : List Char} {w : List Char}
    (h : w ∈ pySplit s) : w ≠ [] := by
  unfold pySplit at h
  have := List.of_mem_filter h
  intro hnil
  subst hnil
  simp at this

/-- Pieces produced by `splitOnP` contain no separator characters. -/
theorem splitOnP_sep_free {α : Type} (p : α → Bool) :
    ∀ (l : List α), ∀ w ∈ l.splitOnP p, ∀ x ∈ w, p x = false := by
  intro l
  induction l with
  | nil =>
    intro w hw x hx
    rw [List.splitOnP_nil] at hw
    simp at hw
    subst hw
    simp at hx
  | cons a t ih =>
    intro w hw x hx
    rw [List.splitOnP_cons] at hw
    by_cases hp : p a
    · rw [if_pos hp] at hw
      rcases List.mem_cons.mp hw with h1 | h2
      · subst h1; simp at hx
      · exact ih w h2 x hx
    · rw [if_neg hp] at hw
      cases hsplit : t.splitOnP p with
      | nil => exact absurd hsplit (List.splitOnP_ne_nil p t)
      | cons h0 rest =>
        rw [hsplit, List.modifyHead_cons] at hw
        rcases List.mem_cons.mp hw with h1 | h2
        · subst h1
          rcases List.mem_cons.mp hx with hx1 | hx2
          · subst hx1; exact Bool.eq_false_iff.mpr hp
          · exact ih h0 (hsplit ▸ List.mem_cons_self h0 rest) x hx2
        · exact ih w (hsplit ▸ List.mem_cons_of_mem h0 h2) x hx

/-- Every word produced by `pySplit` is whitespace-free. -/
theorem mem_pySplit_no_ws {s : List Char} {w : List Char}
    (h : w ∈ pySplit s) : ∀ c ∈ w, isWs c = false := by
  unfold pySplit at h
  exact splitOnP_sep_free isWs s w (List.mem_of_mem_filter h)

/-- `text.strip()` is empty exactly when every character is whitespace. -/
theorem pyStrip_eq_nil_iff (s : List Char) :
    pyStrip s = [] ↔ ∀ c ∈ s, isWs c = true := by
  unfold pyStrip
  rw [List.reverse_eq_nil_iff, List.dropWhile_eq_nil_iff]
  constructor
  · intro h c hc
    by_cases hcw : isWs c
    · exact hcw
    · exfalso
      -- the first non-whitespace character survives the leading dropWhile
      have hmem : c ∈ s.dropWhile isWs := by
        have hsub : c ∈ s := hc
        -- split s at the dropWhile boundary
        have : s = s.takeWhile isWs ++ s.dropWhile isWs :=
          (List.takeWhile_append_dropWhile (p := isWs) (l := s)).symm
        rw [this] at hsub
        rcases List.mem_append.mp hsub with h1 | h2
        · exact absurd (List.mem_takeWhile_imp h1) (by simp [hcw])
        · exact h2
      have := h c (List.mem_reverse.mpr hmem)
      exact hcw this
  · intro h x hx
    exact h x (List.dropWhile_subset isWs (List.mem_reverse.mp hx))

/-- An all-whitespace text splits into no words. -/
theorem pySplit_eq_nil_of_all_ws {s : List Char}
    (h : ∀ c ∈ s, isWs c = true) : pySplit s = [] := by
  induction s with
  | nil => rfl
  | cons a t ih =>
    have ha : isWs a = true := h a (List.mem_cons_self a t)
    unfold pySplit
    rw [List.splitOnP_cons, if_pos ha]
    have : ([] : List Char) :: t.splitOnP isWs =
        [([] : List Char)] ++ t.splitOnP isWs := rfl
    rw [this, List.filter_append]
    have ht := ih (fun c hc => h c (List.mem_cons_of_mem a hc))
    unfold pySplit at ht
    rw [ht]
    rfl

/-- Joining a list whose first word starts with a character exposes that
character as the head of the joined string. -/
theorem pyJoin_cons_head (sep : List Char) (a : Char) (u : List Char)
    (rest : List (List Char)) :
    ∃ t, pyJoinWith sep ((a :: u) :: rest) = a :: t := by
  cases rest with
  | nil => exact ⟨u, rfl⟩
  | cons v vs => exact ⟨u ++ sep ++ pyJoinWith sep (v :: vs), rfl⟩

/-- A string starting with a non-whitespace character does not strip to
empty. -/
theorem pyStrip_cons_ne_nil {a : Char} (ha : isWs a = false)
    (t : List Char) : pyStrip (a :: t) ≠ [] := by
  intro h
  have := (pyStrip_eq_nil_iff (a :: t)).mp h a (List.mem_cons_self a t)
  rw [ha] at this
  exact Bool.false_ne_true this

/-- `' '.join` is a right inverse of `split()` on lists of non-empty
whitespace-free words. -/
theorem pySplit_pyJoin (ws : List (List Char))
    (h : ∀ u ∈ ws, u ≠ [] ∧ ∀ c ∈ u, isWs c = false) :
    pySplit (pyJoinWith [' '] ws) = ws := by
  induction ws with
  | nil => rfl
  | cons u rest ih =>
    obtain ⟨hu, hufree⟩ := h u (List.mem_cons_self u rest)
    have hufree' : ∀ x ∈ u, ¬ isWs x = true := by
      intro x hx
      rw [hufree x hx]
      exact Bool.false_ne_true
    cases rest with
    | nil =>
      show pySplit u = [u]
      unfold pySplit
      rw [List.splitOnP_eq_single isWs u hufree']
      simp [isEmpty_false_of_ne_nil hu]
    | cons v vs =>
      have hjoin : pyJoinWith [' '] (u :: v :: vs) =
          u ++ ' ' :: pyJoinWith [' '] (v :: vs) := by
        show u ++ [' '] ++ pyJoinWith [' '] (v :: vs) = _
        rw [List.append_assoc]
        rfl
      rw [hjoin]
      unfold pySplit
      rw [List.splitOnP_first isWs u hufree' ' ' (by decide)
        (pyJoinWith [' '] (v :: vs))]
      rw [List.filter_cons_of_pos (by simp [isEmpty_false_of_ne_nil hu])]
      have := ih (fun x hx => h x (List.mem_cons_of_mem u hx))
      unfold pySplit at this
      rw [this]

/-! ### Lemmas about `pyRange` -/

/-- Membership in the ceiling-division index count. -/
theorem lt_ceil_iff {s : Nat} (hs : 0 < s) (k n : Nat) :
    k < (n + s - 1) / s ↔ k * s < n := by
  have hmul : (k + 1) * s = k * s + s := Nat.succ_mul k s
  constructor
  · intro hk
    rcases Nat.eq_zero_or_pos n with hn | hn
    · subst hn
      rw [Nat.zero_add, Nat.div_eq_of_lt (by omega)] at hk
      omega
    · have h1 : k + 1 ≤ (n + s - 1) / s := hk
      have h2 : (k + 1) * s ≤ n + s - 1 := (Nat.le_div_iff_mul_le hs).mp h1
      rw [hmul] at h2
      omega
  · intro hlt
    have h2 : (k + 1) * s ≤ n + s - 1 := by rw [hmul]; omega
    exact (Nat.le_div_iff_mul_le hs).mpr h2

theorem pyRange_length (n s : Nat) :
    (pyRange n s).length = (n + s - 1) / s := by
  simp [pyRange]

theorem mem_pyRange_lt {n s : Nat} (hs : 0 < s) {i : Nat}
    (h : i ∈ pyRange n s) : i < n := by
  unfold pyRange at h
  obtain ⟨k, hk, rfl⟩ := List.mem_map.mp h
  exact (lt_ceil_iff hs k n).mp (List.mem_range.mp hk)

/-- Peeling the first window index off `range(0, n, s)`. -/
theorem pyRange_succ {n s : Nat} (hn : 0 < n) (hs : 0 < s) :
    pyRange n s = 0 :: (pyRange (n - s) s).map (fun i => i + s) := by
  have hM : (n + s - 1) / s = ((n - s) + s - 1) / s + 1 := by
    rcases le_or_lt n s with hle | hgt
    · have h0 : n - s = 0 := by omega
      rw [h0]
      have h1 : (s - 1) / s = 0 := Nat.div_eq_of_lt (by omega)
      have h2 : n + s - 1 = (n - 1) + s := by omega
      have h3 : (0 + s - 1) / s = 0 := by rw [Nat.zero_add]; exact h1
      rw [h2, Nat.add_div_right _ hs, Nat.div_eq_of_lt (by omega), h3]
    · have h2 : n + s - 1 = ((n - s) + s - 1) + s := by omega
      rw [h2, Nat.add_div_right _ hs]
  unfold pyRange
  rw [hM, List.range_succ_eq_map, List.map_cons, List.map_map, List.map_map]
  rw [Nat.zero_mul]
  congr 1
  apply List.map_congr_left
  intro a _
  show (a + 1) * s = a * s + s
  exact Nat.succ_mul a s

/-! ### Structure of `split_text_into_chunks` -/

/-- A fold appending elements that all pass the guard is a map. -/
theorem foldl_append_if (g : List Char → Bool) (f : Nat → List Char) :
    ∀ (l : List Nat) (init : List (List Char)),
      (∀ i ∈ l, g (f i) = false) →
      l.foldl (fun acc i => if g (f i) then acc else acc ++ [f i]) init
        = init ++ l.map f := by
  intro l
  induction l with
  | nil => intro init _; simp
  | cons a t ih =>
    intro init h
    rw [List.foldl_cons, List.map_cons]
    rw [h a (List.mem_cons_self a t), if_neg Bool.false_ne_true]
    rw [ih (init ++ [f a]) (fun i hi => h i (List.mem_cons_of_mem a hi))]
    simp

/-- Every window the chunker visits starts at an in-range word index and its
joined text passes the `chunk.strip()` guard. -/
theorem window_strip_ne_empty {text : List Char} {c : Nat} (hc : 0 < c)
    {i : Nat} (hi : i < (pySplit text).length) :
    (pyStrip (pyJoinWith [' '] (((pySplit text).drop i).take c))).isEmpty
      = false := by
  set words := pySplit text with hwords
  obtain ⟨a, u, hdrop⟩ : ∃ a u, words.drop i = a :: u := by
    cases hd : words.drop i with
    | nil =>
      exfalso
      have := List.length_drop i words
      rw [hd] at this
      simp at this
      omega
    | cons a u => exact ⟨a, u, rfl⟩
  have haw : a ∈ words := List.drop_subset i words (hdrop ▸ List.mem_cons_self a u)
  have hane : a ≠ [] := mem_pySplit_ne_nil (hwords ▸ haw)
  have hafree : ∀ ch ∈ a, isWs ch = false := mem_pySplit_no_ws (hwords ▸ haw)
  obtain ⟨ch, a', rfl⟩ : ∃ ch a', a = ch :: a' := by
    cases a with
    | nil => exact absurd rfl hane
    | cons ch a' => exact ⟨ch, a', rfl⟩
  obtain ⟨c', rfl⟩ : ∃ c', c = c' + 1 := ⟨c - 1, by omega⟩
  rw [hdrop, List.take_succ_cons]
  obtain ⟨t, hjoin⟩ := pyJoin_cons_head [' '] ch a' (u.take c')
  rw [hjoin]
  exact isEmpty_false_of_ne_nil
    (pyStrip_cons_ne_nil (hafree ch (List.mem_cons_self ch a')) t)

/-- `split_text_into_chunks` is exactly the map of `' '.join` over the
sliding word windows at the stride positions. -/
theorem split_chunks_eq (text : List Char) (c o : Nat) (h : o < c) :
    split_text_into_chunks text c o
      = (pyRange (pySplit text).length (c - o)).map
          (fun i => pyJoinWith [' '] (((pySplit text).drop i).take c)) := by
  have hs : 0 < c - o := by omega
  unfold split_text_into_chunks
  by_cases hstrip : (pyStrip text).isEmpty
  · rw [if_pos hstrip]
    have hnil : pySplit text = [] :=
      pySplit_eq_nil_of_all_ws
        ((pyStrip_eq_nil_iff text).mp (eq_nil_of_isEmpty hstrip))
    rw [hnil]
    have hrange : pyRange ([] : List (List Char)).length (c - o) = [] := by
      unfold pyRange
      rw [List.length_nil, Nat.zero_add, Nat.div_eq_of_lt (by omega)]
      rfl
    rw [hrange]
    rfl
  · rw [if_neg hstrip]
    exact (foldl_append_if (fun ch => (pyStrip ch).isEmpty)
      (fun i => pyJoinWith [' '] (((pySplit text).drop i).take c))
      (pyRange (pySplit text).length (c - o)) []
      (fun i hi => window_strip_ne_empty (by omega)
        (mem_pyRange_lt hs hi))).trans
      (List.nil_append _)

/-! ### Claim C3 -/

/-- Claim C3, counterexample to the overlap clause as stated: with
`chunk_size = 10`, `overlap = 8` (so stride 2) and the five-word text
`"a b c d e"`, the chunker emits three chunks, so chunk index 1 is after the
first chunk and is not the final chunk; yet it shares only
`min 8 (5 - 2) = 3` words with chunk 0, not `overlap = 8` — refuting "every
chunk after the first overlaps the previous chunk by exactly o words except
possibly the final short chunk". -/
theorem chunk_overlap_counterexample :
    split_text_into_chunks ("a b c d e".toList) 10 8
      = ["a b c d e".toList, "c d e".toList, "e".toList]
    ∧ (split_text_into_chunks ("a b c d e".toList) 10 8).length = 3
    ∧ ((((pySplit ("a b c d e".toList)).drop (1 * (10 - 8))).take 10).take 8).length
        = 3
    ∧ (3 : Nat) ≠ 8 := by decide

/-- Claim C3, amended: for `overlap < chunk_size`, empty or whitespace-only
text yields zero chunks; otherwise the chunks are exactly the `' '.join`s of
the windows of `chunk_size` words advancing by `chunk_size - overlap` words,
the chunk count is the ceiling stride count, each chunk after the first
shares with its predecessor exactly the `min overlap (w - j·stride)` words at
the window boundary (which is exactly `overlap` except for trailing short
chunks with fewer than `overlap` words remaining after their start), and
every window — including a trailing partial one — is non-empty and is
included. -/
theorem chunking_spec_amended (text : List Char) (c o : Nat) (h : o < c) :
    (pyStrip text = [] → split_text_into_chunks text c o = [])
    ∧ split_text_into_chunks text c o
        = (List.range (((pySplit text).length + (c - o) - 1) / (c - o))).map
            (fun j => pyJoinWith [' ']
              (((pySplit text).drop (j * (c - o))).take c))
    ∧ (split_text_into_chunks text c o).length
        = ((pySplit text).length + (c - o) - 1) / (c - o)
    ∧ (∀ j, 0 < j →
        j < ((pySplit text).length + (c - o) - 1) / (c - o) →
        (((pySplit text).drop ((j - 1) * (c - o))).take c).drop (c - o)
            = (((pySplit text).drop (j * (c - o))).take c).take o
        ∧ ((((pySplit text).drop (j * (c - o))).take c).take o).length
            = min o ((pySplit text).length - j * (c - o)))
    ∧ (∀ j, j < ((pySplit text).length + (c - o) - 1) / (c - o) →
        ((pySplit text).drop (j * (c - o))).take c ≠ []) := by
  have hs : 0 < c - o := by omega
  refine ⟨?_, ?_, ?_, ?_, ?_⟩
  · intro h'
    unfold split_text_into_chunks
    rw [if_pos (by rw [h']; rfl)]
  · rw [split_chunks_eq text c o h]
    unfold pyRange
    rw [List.map_map]
    rfl
  · rw [split_chunks_eq text c o h, List.length_map, pyRange_length]
  · intro j hj0 hjM
    obtain ⟨j', rfl⟩ : ∃ j', j = j' + 1 := ⟨j - 1, by omega⟩
    have e1 : c - (c - o) = o := by omega
    have e2 : j' * (c - o) + (c - o) = (j' + 1) * (c - o) :=
      (Nat.succ_mul j' (c - o)).symm
    have e3 : min o c = o := Nat.min_eq_left (by omega)
    constructor
    · rw [Nat.add_sub_cancel, List.drop_take, List.drop_drop, List.take_take,
        e1, e2, e3]
    · rw [List.take_take, e3, List.length_take, List.length_drop]
  · intro j hj hnil
    have hjw : j * (c - o) < (pySplit text).length :=
      (lt_ceil_iff hs j (pySplit text).length).mp hj
    have hlen : (((pySplit text).drop (j * (c - o))).take c).length = 0 := by
      rw [hnil]; rfl
    rw [List.length_take, List.length_drop] at hlen
    generalize hq : j * (c - o) = q at hjw hlen
    omega

/-- Claim C3, amended, witness at `"a b"` with `chunk_size = 2`,
`overlap = 1`. -/
theorem chunking_spec_amended_witness :
    (1 : Nat) < 2
    ∧ (split_text_into_chunks ("a b".toList) 2 1).length
        = ((pySplit ("a b".toList)).length + (2 - 1) - 1) / (2 - 1) :=
  ⟨by decide, (chunking_spec_amended ("a b".toList) 2 1 (by decide)).2.2.1⟩

/-! ### Claim C10 -/

/-- Claim C10: for `overlap < chunk_size`, every chunk emitted by
`split_text_into_chunks` is non-empty (splits into at least one word) and
contains at most `chunk_size` whitespace-separated words. -/
theorem chunks_nonempty_and_bounded (text : List Char) (c o : Nat)
    (h : o < c) (chunk : List Char)
    (hc : chunk ∈ split_text_into_chunks text c o) :
    pySplit chunk ≠ [] ∧ (pySplit chunk).length ≤ c := by
  rw [split_chunks_eq text c o h] at hc
  obtain ⟨i, hi, rfl⟩ := List.mem_map.mp hc
  have hs : 0 < c - o := by omega
  have hiw : i < (pySplit text).length := mem_pyRange_lt hs hi
  have hwin : ∀ u ∈ ((pySplit text).drop i).take c,
      u ≠ [] ∧ ∀ ch ∈ u, isWs ch = false := by
    intro u hu
    have hmem : u ∈ pySplit text :=
      List.drop_subset i (pySplit text) (List.take_subset c _ hu)
    exact ⟨mem_pySplit_ne_nil hmem, mem_pySplit_no_ws hmem⟩
  rw [pySplit_pyJoin _ hwin]
  constructor
  · intro hnil
    have hlen : (((pySplit text).drop i).take c).length = 0 := by
      rw [hnil]; rfl
    rw [List.length_take, List.length_drop] at hlen
    omega
  · exact List.length_take_le c _

/-- Claim C10, witness at `"a b"` with `chunk_size = 2`, `overlap = 0`. -/
theorem chunks_nonempty_and_bounded_witness :
    ((0 : Nat) < 2 ∧ "a b".toList ∈ split_text_into_chunks ("a b".toList) 2 0)
    ∧ (pySplit ("a b".toList) ≠ [] ∧ (pySplit ("a b".toList)).length ≤ 2) :=
  ⟨⟨by decide, by decide⟩,
    chunks_nonempty_and_bounded ("a b".toList) 2 0 (by decide) ("a b".toList)
      (by decide)⟩

/-! ### Structure of `process_documents` -/

theorem procStep_eq (acc : List (List Char) × List ChunkMeta) (f : SrcFile) :
    procStep acc f = (acc.1 ++ fileChunks f, acc.2 ++ fileMetas f) := by
  unfold procStep fileMetas fileChunks
  by_cases hcf : (fileContent f).isEmpty
  · simp [hcf]
  · simp [hcf]

theorem foldl_procStep_acc :
    ∀ (files : List SrcFile) (acc : List (List Char) × List ChunkMeta),
      files.foldl procStep acc
        = (acc.1 ++ (files.foldl procStep ([], [])).1,
           acc.2 ++ (files.foldl procStep ([], [])).2) := by
  intro files
  induction files with
  | nil => intro acc; simp
  | cons f t ih =>
    intro acc
    rw [List.foldl_cons, List.foldl_cons, procStep_eq, procStep_eq,
      ih (acc.1 ++ fileChunks f, acc.2 ++ fileMetas f),
      ih (([] : List (List Char)) ++ fileChunks f,
          ([] : List ChunkMeta) ++ fileMetas f)]
    simp

theorem process_documents_cons (f : SrcFile) (files : List SrcFile) :
    process_documents (f :: files)
      = (fileChunks f ++ (process_documents files).1,
         fileMetas f ++ (process_documents files).2) := by
  unfold process_documents
  rw [List.foldl_cons, procStep_eq,
    foldl_procStep_acc files (([] : List (List Char)) ++ fileChunks f,
      ([] : List ChunkMeta) ++ fileMetas f)]
  simp

theorem fileMetas_length (f : SrcFile) :
    (fileMetas f).length = (fileChunks f).length := by
  unfold fileMetas
  rw [List.length_map, List.length_range]

/-- `process_documents` emits the per-file chunk and metadata segments in
file order. -/
theorem process_documents_eq (files : List SrcFile) :
    process_documents files
      = ((files.map fileChunks).flatten, (files.map fileMetas).flatten) := by
  induction files with
  | nil => rfl
  | cons f t ih =>
    rw [process_documents_cons, ih, List.map_cons, List.map_cons,
      List.flatten_cons, List.flatten_cons]

theorem process_documents_length (files : List SrcFile) :
    (process_documents files).2.length = (process_documents files).1.length := by
  induction files with
  | nil => rfl
  | cons f t ih =>
    rw [process_documents_cons]
    simp only [List.length_append, fileMetas_length, ih]

/-! ### Claim C5 -/

/-- Claim C5: `process_documents` is the concatenation of per-file chunk and
metadata segments, and for every file producing `k` chunks its `k` metadata
records are parallel to the chunk list and carry `total_chunks = k` with
`chunk_index` running `0..k-1` in emission order. -/
theorem per_file_metadata_correct (files : List SrcFile) (f : SrcFile)
    (hf : f ∈ files) :
    process_documents files
        = ((files.map fileChunks).flatten, (files.map fileMetas).flatten)
    ∧ (fileMetas f).length = (fileChunks f).length
    ∧ ∀ i, i < (fileChunks f).length →
        (fileMetas f)[i]? = some ⟨f.name, i, (fileChunks f).length⟩ := by
  refine ⟨process_documents_eq files, fileMetas_length f, ?_⟩
  intro i hi
  unfold fileMetas
  rw [List.getElem?_map, List.getElem?_range hi]
  rfl

/-- Claim C5, witness: one plain-text file producing a single chunk. -/
theorem per_file_metadata_correct_witness :
    (fileMetas ⟨"a.txt".toList, ".txt".toList, some ("hello world".toList),
        []⟩).length
      = (fileChunks ⟨"a.txt".toList, ".txt".toList,
          some ("hello world".toList), []⟩).length :=
  (per_file_metadata_correct
    [⟨"a.txt".toList, ".txt".toList, some ("hello world".toList), []⟩]
    ⟨"a.txt".toList, ".txt".toList, some ("hello world".toList), []⟩
    (by decide)).2.1

/-! ### Structure of `add_documents` -/

theorem take_zip {α β : Type} :
    ∀ (l : List α) (l' : List β) (n : Nat),
      (l.zip l').take n = (l.take n).zip (l'.take n) := by
  intro l
  induction l with
  | nil => intro l' n; simp
  | cons a t ih =>
    intro l' n
    cases l' with
    | nil => simp
    | cons b t' =>
      cases n with
      | zero => rfl
      | succ n => simp [List.zip_cons_cons, ih t' n]

theorem drop_zip {α β : Type} :
    ∀ (l : List α) (l' : List β) (n : Nat),
      (l.zip l').drop n = (l.drop n).zip (l'.drop n) := by
  intro l
  induction l with
  | nil => intro l' n; simp
  | cons a t ih =>
    intro l' n
    cases l' with
    | nil => simp
    | cons b t' =>
      cases n with
      | zero => rfl
      | succ n => simp [List.zip_cons_cons, ih t' n]

/-- Concatenating the consecutive `k`-slices of a list rebuilds the list. -/
theorem foldl_slices {α : Type} (k : Nat) (hk : 0 < k) :
    ∀ (n : Nat) (L init : List α), L.length ≤ n →
      (pyRange L.length k).foldl (fun acc i => acc ++ (L.drop i).take k) init
        = init ++ L := by
  intro n
  induction n with
  | zero =>
    intro L init hL
    have hnil : L = [] := List.eq_nil_of_length_eq_zero (by omega)
    subst hnil
    show (pyRange 0 k).foldl _ init = init ++ []
    unfold pyRange
    rw [Nat.zero_add, Nat.div_eq_of_lt (by omega)]
    simp
  | succ n ih =>
    intro L init hL
    rcases Nat.eq_zero_or_pos L.length with h0 | hpos
    · have hnil : L = [] := List.eq_nil_of_length_eq_zero h0
      subst hnil
      show (pyRange 0 k).foldl _ init = init ++ []
      unfold pyRange
      rw [Nat.zero_add, Nat.div_eq_of_lt (by omega)]
      simp
    · rw [pyRange_succ hpos hk, List.foldl_cons, List.foldl_map]
      have hfun : (fun (acc : List α) i => acc ++ (L.drop (i + k)).take k)
          = (fun acc i => acc ++ ((L.drop k).drop i).take k) := by
        funext acc i
        rw [List.drop_drop, Nat.add_comm k i]
      have hlen : L.length - k = (L.drop k).length := (List.length_drop k L).symm
      calc (pyRange (L.length - k) k).foldl
              (fun acc i => acc ++ (L.drop (i + k)).take k)
              (init ++ (L.drop 0).take k)
        = (pyRange (L.drop k).length k).foldl
              (fun acc i => acc ++ ((L.drop k).drop i).take k)
              (init ++ (L.drop 0).take k) := by rw [hfun, hlen]
        _ = (init ++ (L.drop 0).take k) ++ L.drop k := by
              refine ih (L.drop k) _ ?_
              rw [← hlen]
              omega
        _ = init ++ L := by
              rw [List.drop_zero, List.append_assoc, List.take_append_drop]

/-- On aligned inputs, batching in `add_documents` appends exactly the zipped
(document, metadata) pairs to the collection. -/
theorem add_documents_items (st : VectorStoreState) (docs : List (List Char))
    (metas : List ChunkMeta) (h : metas.length = docs.length) :
    (add_documents st docs metas).collection.items
      = st.collection.items ++ docs.zip metas := by
  unfold add_documents
  have hslice : ∀ i, ((docs.drop i).take 100).zip ((metas.drop i).take 100)
      = ((docs.zip metas).drop i).take 100 := by
    intro i
    rw [← take_zip (docs.drop i) (metas.drop i) 100, ← drop_zip docs metas i]
  have hproj : ∀ (idxs : List Nat) (s0 : VectorStoreState),
      (idxs.foldl (fun s i =>
        { s with collection :=
            ⟨s.collection.items
              ++ (((docs.drop i).take 100).zip ((metas.drop i).take 100))⟩ })
        s0).collection.items
      = idxs.foldl (fun acc i => acc ++ ((docs.zip metas).drop i).take 100)
          s0.collection.items := by
    intro idxs
    induction idxs with
    | nil => intro s0; rfl
    | cons a t iht =>
      intro s0
      rw [List.foldl_cons, List.foldl_cons, iht, hslice]
  rw [hproj]
  have hlen : docs.length = (docs.zip metas).length := by
    rw [List.length_zip]
    omega
  rw [hlen]
  exact foldl_slices 100 (by omega) (docs.zip metas).length _ _ (Nat.le_refl _)

theorem clear_items (st : VectorStoreState) (d : Bool) (sfx : List Char) :
    (clear st d sfx).collection.items = [] := by
  cases d <;> rfl

/-! ### Claim C4 -/

/-- Claim C4: over an unchanged document folder, running `/update` twice
reports the same chunk count both times, and after each run — whichever
branch `clear` took — the collection holds exactly the chunks (with their
metadata) derived from the current folder contents, never merged with or
doubled by the previous contents. -/
theorem update_exact_and_idempotent (st : VectorStoreState) (d1 d2 : Bool)
    (s1 s2 : List Char) (files : List SrcFile) :
    (update st d1 s1 files).2 = (update (update st d1 s1 files).1 d2 s2 files).2
    ∧ (update st d1 s1 files).1.collection.items
        = (process_documents files).1.zip (process_documents files).2
    ∧ (update (update st d1 s1 files).1 d2 s2 files).1.collection.items
        = (process_documents files).1.zip (process_documents files).2
    ∧ (update st d1 s1 files).1.collection.items.length
        = (update st d1 s1 files).2 := by
  have hitems : ∀ (s : VectorStoreState) (d : Bool) (x : List Char),
      (update s d x files).1.collection.items
        = (process_documents files).1.zip (process_documents files).2 := by
    intro s d x
    show (add_documents (clear s d x) (process_documents files).1
        (process_documents files).2).collection.items = _
    rw [add_documents_items _ _ _ (process_documents_length files),
      clear_items]
    rfl
  refine ⟨rfl, hitems st d1 s1, hitems _ d2 s2, ?_⟩
  rw [hitems st d1 s1]
  show ((process_documents files).1.zip (process_documents files).2).length
      = (process_documents files).1.length
  rw [List.length_zip, process_documents_length]
  omega

/-! ### Claims C6 and C7 -/

/-- Claim C6: with a non-empty context, `get_answer` is total — a timeout of
the remote call yields the fixed retry-hint string, any other failure yields
the error string with the failure description embedded (as a suffix), and a
successful call yields its answer; in every case the caller receives a
string. -/
theorem get_answer_total_on_failures (q ctx : List Char) (h : ctx ≠ []) :
    get_answer q ctx ApiOutcome.timeout = timeoutMsg
    ∧ (∀ m, get_answer q ctx (ApiOutcome.failure m) = errorHead ++ m
        ∧ m <:+ get_answer q ctx (ApiOutcome.failure m))
    ∧ (∀ a, get_answer q ctx (ApiOutcome.success a) = a) := by
  have hne : ctx.isEmpty = false := isEmpty_false_of_ne_nil h
  refine ⟨?_, ?_, ?_⟩
  · simp [get_answer, get_answer_run, hne]
  · intro m
    constructor
    · simp [get_answer, get_answer_run, hne]
    · simp only [get_answer, get_answer_run, hne]
      exact List.suffix_append errorHead m
  · intro a
    simp [get_answer, get_answer_run, hne]

/-- Claim C6, witness. -/
theorem get_answer_total_on_failures_witness :
    get_answer ("q".toList) ("x".toList) ApiOutcome.timeout = timeoutMsg :=
  (get_answer_total_on_failures ("q".toList) ("x".toList) (by decide)).1

/-- Claim C7: with an empty context, `get_answer` returns exactly the fixed
"no relevant information" fallback and never reaches the remote call (the
run flag stays `false`). -/
theorem get_answer_empty_context_short_circuit (q : List Char)
    (api : ApiOutcome) :
    get_answer_run q [] api = (noRelevantMsg, false)
    ∧ get_answer q [] api = noRelevantMsg :=
  ⟨rfl, rfl⟩

/-! ### Claims C8 and C9 -/

/-- Claim C8: when the memo table misses so the body actually runs, a failure
of either internal step (embedding the query, or querying the index) makes
`search` return the degraded empty result — one empty document list and one
empty metadata list — instead of propagating the exception. -/
theorem search_degrades_to_empty (st : VectorStoreState) (q : List Char)
    (n : Nat) (msg : List Char) (h : cacheLookup st.cache (q, n) = none) :
    (search st q n (SearchSteps.embedFail msg)).1 = emptySearchResult
    ∧ (search st q n (SearchSteps.queryFail msg)).1 = emptySearchResult
    ∧ (∀ d ∈ emptySearchResult.documents, d = [])
    ∧ (∀ m ∈ emptySearchResult.metadatas, m = []) := by
  unfold search
  rw [h]
  exact ⟨rfl, rfl, by decide, by decide⟩

/-- Claim C8, witness. -/
theorem search_degrades_to_empty_witness :
    (search initialStore ("q".toList) 2 (SearchSteps.embedFail [])).1
      = emptySearchResult :=
  (search_degrades_to_empty initialStore ("q".toList) 2 [] (by decide)).1

/-- Claim C9: `is_empty` reports `true` exactly when the current collection
holds zero chunks, and reports `true` (rather than raising) when the count
call fails. -/
theorem is_empty_spec (st : VectorStoreState) :
    (is_empty st false = true ↔ st.collection.items.length = 0)
    ∧ is_empty st true = true := by
  constructor
  · unfold is_empty
    simp
  · rfl

/-! ### Claim C1 -/

/-- Claim C1 fails on the code: with an empty index and a folder yielding
zero chunks, the `HTTPException(404, "No documents found ...")` raised inside
the handler's `try` block is itself an `Exception`, so the handler's
`except Exception` clause catches it and re-raises
`HTTPException(500, str(e))` — the client receives a 500 whose detail embeds
the original 404 message, not the 404 the spec promises. -/
theorem ask_empty_ingest_returns_500 :
    ask_question initialStore false [] (SearchSteps.embedFail [])
        ApiOutcome.timeout ("hi".toList)
      = Except.error (PyExc.httpExc 500 (pyStr (PyExc.httpExc 404 noDocsMsg)))
    ∧ excStatus (ask_question initialStore false [] (SearchSteps.embedFail [])
        ApiOutcome.timeout ("hi".toList)) = some 500
    ∧ some (500 : Nat) ≠ some (404 : Nat) :=
  ⟨rfl, rfl, by decide⟩

/-! ### Claim C2 -/

/-- Claim C2 fails on the code: `search.cache_clear()` sits only in the `try`
branch of `clear`, so on the fallback path (old collection cannot be
destroyed; rename and recreate) the memo table survives.  Concretely: a
search for `("q", 2)` caches a result; `clear` then takes the fallback path;
the same search afterwards returns the pre-clear cached result even though
the rebuilt index would now answer differently — while on the normal `try`
path the cache is cleared and the fresh result is returned. -/
theorem clear_fallback_serves_stale_cache :
    (search (clear (search initialStore ("q".toList) 2
          (SearchSteps.ok ⟨[["old".toList]], [[⟨"f.txt".toList, 0, 1⟩]]⟩)).2
        true ("deadbeef".toList))
      ("q".toList) 2
      (SearchSteps.ok ⟨[["new".toList]], [[⟨"g.txt".toList, 0, 1⟩]]⟩)).1
      = ⟨[["old".toList]], [[⟨"f.txt".toList, 0, 1⟩]]⟩
    ∧ (⟨[["old".toList]], [[⟨"f.txt".toList, 0, 1⟩]]⟩ : SearchResult)
        ≠ ⟨[["new".toList]], [[⟨"g.txt".toList, 0, 1⟩]]⟩
    ∧ (search (clear (search initialStore ("q".toList) 2
          (SearchSteps.ok ⟨[["old".toList]], [[⟨"f.txt".toList, 0, 1⟩]]⟩)).2
        false ("deadbeef".toList))
      ("q".toList) 2
      (SearchSteps.ok ⟨[["new".toList]], [[⟨"g.txt".toList, 0, 1⟩]]⟩)).1
      = ⟨[["new".toList]], [[⟨"g.txt".toList, 0, 1⟩]]⟩ :=
  ⟨rfl, by decide, rfl⟩

end PersonalChat
